import Mathlib

/-!
# Verification of the claude-memory-system inter-agent messaging relay and installer

This development embeds, in Lean 4, the two verifiable parts of the
repository:

* the inter-agent messaging relay (the MCP message server: agent directory
  resolver, message store, request handler).  The Python server code itself is
  not part of the source tree shipped here (only its installer, shell glue and
  callers are), so the relay is modelled from the specification, definition by
  definition; every such definition carries a doc comment starting with
  `Modelled from the spec:`.
* the installer's `configureSettings` / `configureMCPProject` functions
  (`bin/install.js`), which are embedded directly from the JavaScript source.

All definitions are executable; theorems about them follow.
-/

namespace Relay

/-- Modelled from the spec: message priority, one of `high`, `medium`, `low`
(§3 Data Model). -/
inductive Priority where
  | high
  | medium
  | low
deriving DecidableEq, Repr

/-- Modelled from the spec: priority rank used as the primary sort key:
`high` sorts before `medium` before `low` (§4.2 `list` ordering). -/
def priorityRank : Priority → Nat
  | .high => 0
  | .medium => 1
  | .low => 2

/-- Modelled from the spec: parsing of the caller-supplied priority string;
anything other than the three allowed values is an invalid argument
(§4.2 `create`). -/
def parsePriority : String → Option Priority
  | "high" => some Priority.high
  | "medium" => some Priority.medium
  | "low" => some Priority.low
  | _ => none

/-- Modelled from the spec: the core persisted Message entity (§3, §6 wire
shape).  Timestamps are modelled as natural numbers (seconds of full
precision creation time). -/
structure Message where
  id : String
  from_ : String
  to_ : String
  body : String
  priority : Priority
  timestamp : Nat
  context_files : List String
  read : Bool
deriving DecidableEq, Repr

/-- Modelled from the spec: the generated id, derived from the creation
timestamp plus a short fragment of the sender identity (§3). -/
def mkId (ts : Nat) (sender : String) : String :=
  toString ts ++ "-" ++ sender.take 4

/-- Modelled from the spec: construction of a fresh message: `read` is false
at creation, `id` and `timestamp` are generated (§3, §4.2 `create`). -/
def mkMessage (from_ to_ body : String) (p : Priority) (ctx : List String)
    (ts : Nat) : Message :=
  { id := mkId ts from_, from_ := from_, to_ := to_, body := body,
    priority := p, timestamp := ts, context_files := ctx, read := false }

/-- Modelled from the spec: durable storage, one active inbox collection and
one archive collection per recipient identity (§3 Recipient Inbox, §6). -/
structure Store where
  inboxes : String → List Message
  archives : String → List Message

/-- The empty store: no recipient has any message. -/
def emptyStore : Store := ⟨fun _ => [], fun _ => []⟩

/-- Replace one recipient's active inbox. -/
def Store.setInbox (st : Store) (agent : String) (l : List Message) : Store :=
  { st with inboxes := fun a => if a = agent then l else st.inboxes a }

/-- Replace one recipient's archive collection. -/
def Store.setArchive (st : Store) (agent : String) (l : List Message) : Store :=
  { st with archives := fun a => if a = agent then l else st.archives a }

/-- Modelled from the spec: ordering of listed messages — primary key the
priority rank, secondary key the timestamp ascending (§4.2 `list`). -/
def msgLE (a b : Message) : Prop :=
  priorityRank a.priority < priorityRank b.priority ∨
    (priorityRank a.priority = priorityRank b.priority ∧ a.timestamp ≤ b.timestamp)

instance : DecidableRel msgLE := fun _ _ =>
  inferInstanceAs (Decidable (_ ∨ _))

instance : IsTotal Message msgLE where
  total a b := by
    unfold msgLE
    omega

instance : IsTrans Message msgLE where
  trans a b c hab hbc := by
    unfold msgLE at *
    omega

/-- Modelled from the spec: the sort applied to listed messages (§4.2). -/
def sortMessages (l : List Message) : List Message :=
  List.insertionSort msgLE l

/-- Mark one message read (the only mutation a message ever undergoes). -/
def markRead (m : Message) : Message := { m with read := true }

/-- Modelled from the spec: the selection predicate of `list`: messages with
`read == False` unless `include_read`, further filtered by priority when a
filter is given (§4.2 `list`). -/
def selects (priority_filter : Option Priority) (include_read : Bool)
    (m : Message) : Bool :=
  (include_read || !m.read) &&
    (match priority_filter with
     | none => true
     | some p => m.priority == p)

/-- Modelled from the spec: `list(agent, priority_filter, include_read)` with
the mark-as-read side effect: returns the selected messages sorted, and —
unless the caller opts out — marks every returned message `read = true` in
the persisted inbox before returning (§4.2 `list`). -/
def Store.list (st : Store) (agent : String) (priority_filter : Option Priority)
    (include_read : Bool) (mark_as_read : Bool) : List Message × Store :=
  let inbox := st.inboxes agent
  let selected := inbox.filter (selects priority_filter include_read)
  let returned :=
    sortMessages (if mark_as_read then selected.map markRead else selected)
  let newInbox :=
    if mark_as_read then
      inbox.map (fun m => if selects priority_filter include_read m then markRead m else m)
    else inbox
  (returned, st.setInbox agent newInbox)

/-- Modelled from the spec: `create` at the store level — appends the new
message to the recipient's inbox (created lazily if absent) and persists
(§4.2 `create`). -/
def Store.create (st : Store) (from_ to_ body : String) (p : Priority)
    (ctx : List String) (ts : Nat) : Message × Store :=
  let m := mkMessage from_ to_ body p ctx ts
  (m, st.setInbox to_ (st.inboxes to_ ++ [m]))

/-- Seconds in a day, used for the age cutoff of `archive`. -/
def secondsPerDay : Nat := 86400

/-- Modelled from the spec: the archival predicate — `read == true` and
timestamp older than the cutoff `now - older_than_days` (§4.2 `archive`). -/
def archivable (olderThanDays now : Nat) (m : Message) : Bool :=
  m.read && decide (m.timestamp < now - olderThanDays * secondsPerDay)

/-- Modelled from the spec: `archive(agent, older_than_days)` — moves every
read message older than the cutoff from the agent's inbox into that agent's
archive collection and returns the number moved (§4.2 `archive`). -/
def Store.archive (st : Store) (agent : String) (olderThanDays now : Nat) :
    Nat × Store :=
  let inbox := st.inboxes agent
  let moved := inbox.filter (archivable olderThanDays now)
  let kept := inbox.filter (fun m => !(archivable olderThanDays now m))
  (moved.length,
    (st.setInbox agent kept).setArchive agent (st.archives agent ++ moved))

/-- Modelled from the spec: Levenshtein edit distance between two character
lists, the string-similarity measure powering "did you mean" guidance
(§4.1 `closest_matches`).  The recursion is fuelled so that it is structural
(each recursive call shortens the combined input, so fuel equal to the
combined length is never exhausted). -/
def levAux : Nat → List Char → List Char → Nat
  | _, [], ys => ys.length
  | _, x :: xs, [] => (x :: xs).length
  | 0, _, _ => 0
  | fuel + 1, x :: xs, y :: ys =>
    if x = y then levAux fuel xs ys
    else 1 + min (levAux fuel xs (y :: ys))
               (min (levAux fuel (x :: xs) ys) (levAux fuel xs ys))

/-- Edit distance on strings. -/
def levenshtein (a b : String) : Nat :=
  levAux (a.length + b.length) a.toList b.toList

/-- The "small edit distance" bound inside which roster entries are offered
as suggestions. -/
def smallDistance : Nat := 3

/-- Roster entries at edit distance at most `d` from `name`, ordered by
distance first, roster order second (ties broken by roster order, §4.1). -/
def collectByDist (roster : List String) (name : String) : Nat → List String
  | 0 => roster.filter (fun r => decide (levenshtein name r = 0))
  | d + 1 => collectByDist roster name d ++
      roster.filter (fun r => decide (levenshtein name r = d + 1))

/-- Modelled from the spec: `closest_matches(unknown_name, roster)` — an
ordered sequence of up to 3 roster names, closest edit distance first, ties
broken by roster order (§4.1). -/
def closestMatches (roster : List String) (name : String) : List String :=
  (collectByDist roster name smallDistance).take 3

/-- Modelled from the spec: the literal retry template of the unknown-recipient
result, with placeholders filled in from the caller's own input (§4.3.2). -/
def retryTemplate (from_agent message : String) : String :=
  "create_message(from_agent=" ++ from_agent ++
    ", to_agent=<one of the suggested names>, message=" ++ message ++ ")"

/-- Modelled from the spec: the structured outcome of `create_message`:
success, a generic invalid-argument failure naming the offending field and
the accepted values, or the distinguished unknown-recipient failure carrying
the full roster, the suggestions and the retry template (§4.3.2, §7). -/
inductive CreateOutcome where
  | created (m : Message)
  | invalidArgument (field accepted : String)
  | unknownRecipient (roster suggestions : List String) (retry : String)
deriving DecidableEq, Repr

/-- `true` exactly on the generic invalid-argument failure. -/
def CreateOutcome.isInvalidArgument : CreateOutcome → Bool
  | .invalidArgument _ _ => true
  | _ => false

/-- Modelled from the spec: the `create_message` request handler.  Validates
the arguments (empty required field or malformed priority is rejected before
any storage access), then checks `to_agent` against the roster of identities
discovered at call time, then delegates to the store.  On any failure the
store is returned unchanged (§4.3.2, §7). -/
def create_message (roster : List String) (st : Store)
    (from_agent to_agent message priority : String)
    (context_files : List String) (ts : Nat) : CreateOutcome × Store :=
  if from_agent = "" then
    (CreateOutcome.invalidArgument ("from_agent") ("a non-empty agent name"), st)
  else if to_agent = "" then
    (CreateOutcome.invalidArgument ("to_agent") ("a non-empty agent name"), st)
  else if message = "" then
    (CreateOutcome.invalidArgument ("message") ("non-empty message content"), st)
  else
    match parsePriority priority with
    | none =>
        (CreateOutcome.invalidArgument ("priority") ("one of high, medium, low"), st)
    | some p =>
        if to_agent ∈ roster then
          let r := st.create from_agent to_agent message p context_files ts
          (CreateOutcome.created r.1, r.2)
        else
          (CreateOutcome.unknownRecipient roster (closestMatches roster to_agent)
            (retryTemplate from_agent message), st)

/-- Modelled from the spec: the `read_messages` request handler — requires a
non-empty `agent_name` and delegates to the store `list` operation, passing
`mark_as_read` through as the opt-out flag (§4.3.3). -/
def read_messages (st : Store) (agent_name : String) (mark_as_read : Bool)
    (priority_filter : Option Priority) (include_read : Bool) :
    Except String (List Message × Store) :=
  if agent_name = "" then Except.error ("agent_name is required")
  else Except.ok (st.list agent_name priority_filter include_read mark_as_read)

/-- The bodies returned by a `read_messages` call (empty on failure); used to
state end-to-end scenarios. -/
def bodiesOf (r : Except String (List Message × Store)) : List String :=
  match r with
  | .ok p => p.1.map (fun m => m.body)
  | .error _ => []

/-- The store resulting from a `read_messages` call (unchanged on failure). -/
def storeOf (st : Store) (r : Except String (List Message × Store)) : Store :=
  match r with
  | .ok p => p.2
  | .error _ => st

/-- Modelled from the spec: the `clear_messages` request handler — requires a
non-empty `agent_name` and a non-negative `older_than_days`, then delegates
to the store `archive` operation and reports the count (§4.3.4). -/
def clear_messages (st : Store) (agent_name : String) (older_than_days : Int)
    (now : Nat) : Except String (Nat × Store) :=
  if agent_name = "" then Except.error ("agent_name is required")
  else if older_than_days < 0 then
    Except.error ("older_than_days must be a non-negative integer")
  else Except.ok (st.archive agent_name older_than_days.toNat now)

/-- Modelled from the spec: a discovered agent descriptor — declared name,
description, and origin (project-local vs user-global), read fresh on every
discovery call (§3, §4.1). -/
structure AgentDescriptor where
  name : String
  description : String
  origin : String
deriving DecidableEq, Repr

/-- Modelled from the spec: the configuration directory tree the resolver
scans: an optional project-local root and an optional user-global root, each
holding the contents of its candidate descriptor files.  `none` models a
missing configuration root (§4.1). -/
structure ConfigFS where
  projectRoot : Option (List String)
  userRoot : Option (List String)

/-- Extract the value of a `key: value` line of a structured header block. -/
def findField (key : String) (lines : List String) : Option String :=
  lines.findSome? (fun l =>
    if (key ++ ": ").isPrefixOf l then some (l.drop (key.length + 2)) else none)

/-- Modelled from the spec: parsing of the structured header block of a
candidate descriptor file, extracting `name` and `description`; a missing or
unparsable header yields `none` and the file is skipped (§4.1). -/
def parseHeader (content : String) : Option (String × String) :=
  match content.splitOn ("\n") with
  | "---" :: rest =>
      if rest.any (fun l => decide (l = "---")) then
        let headerLines := rest.takeWhile (fun l => decide (l ≠ "---"))
        match findField ("name") headerLines,
              findField ("description") headerLines with
        | some n, some d => some (n, d)
        | _, _ => none
      else none
  | _ => none

/-- Modelled from the spec: `discover_agents()` — scans both configuration
roots, parses each candidate descriptor header, skips unparsable ones
(partial results), tags each descriptor with its origin, and returns the
empty sequence when a root is missing (§4.1). -/
def discover_agents (fs : ConfigFS) : List AgentDescriptor :=
  (match fs.projectRoot with
   | none => []
   | some files =>
       files.filterMap (fun c =>
         (parseHeader c).map (fun nd => ⟨nd.1, nd.2, "project"⟩))) ++
  (match fs.userRoot with
   | none => []
   | some files =>
       files.filterMap (fun c =>
         (parseHeader c).map (fun nd => ⟨nd.1, nd.2, "user"⟩)))

/-- Modelled from the spec: the explanatory empty-state message `list_agents`
returns for an empty roster (§4.3.1). -/
def noAgentsMessage : String :=
  "No agents found. Add agent descriptor files under a configuration root to register agents."

/-- Modelled from the spec: the `list_agents` request handler — never fails;
formats the discovered roster (name and description per agent, grouped by
origin), or the explanatory empty-state message for an empty roster
(§4.3.1). -/
def list_agents (fs : ConfigFS) : String :=
  let roster := discover_agents fs
  if roster.isEmpty then noAgentsMessage
  else
    (roster.map (fun a => a.origin ++ "/" ++ a.name ++ ": " ++ a.description)).foldl
      (fun acc line => acc ++ line ++ "\n") ("Available agents:\n")

/-! ## Concurrent `create` cycles on one recipient's collection

Modelled from the spec (§5): every mutating operation is a read-modify-write
cycle against the recipient's full durable collection, and the design
mandates that this cycle be a per-recipient critical section (a per-recipient
lock held across the cycle), so that two concurrent writers never silently
drop one writer's change.  Two writers, `false` and `true`, each perform
acquire → read snapshot → write (replace the whole collection with
snapshot + own message, releasing the lock). -/

/-- State of one recipient's collection under two concurrent `create` cycles:
the durable inbox, the lock owner, each writer's read snapshot, and whether
each writer has completed its write. -/
structure RMWState where
  inbox : List Message
  lock : Option Bool
  snapA : Option (List Message)
  snapB : Option (List Message)
  writtenA : Bool
  writtenB : Bool
deriving DecidableEq, Repr

/-- One event of an interleaved execution: writer `i` acquires the
per-recipient lock, reads the collection, or writes it back (appending its
own message) and releases the lock. -/
inductive RMWEv where
  | acquire (i : Bool)
  | readInbox (i : Bool)
  | writeInbox (i : Bool)
deriving DecidableEq, Repr

/-- Small-step semantics of the locked read-modify-write cycle; `none` means
the event is not enabled in the given state (the lock is busy, or the writer
is not at that point of its cycle). -/
def rmwStep (msg : Bool → Message) (s : RMWState) : RMWEv → Option RMWState
  | .acquire false =>
      if s.lock = none ∧ s.writtenA = false ∧ s.snapA = none then
        some { s with lock := some false }
      else none
  | .acquire true =>
      if s.lock = none ∧ s.writtenB = false ∧ s.snapB = none then
        some { s with lock := some true }
      else none
  | .readInbox false =>
      if s.lock = some false ∧ s.snapA = none ∧ s.writtenA = false then
        some { s with snapA := some s.inbox }
      else none
  | .readInbox true =>
      if s.lock = some true ∧ s.snapB = none ∧ s.writtenB = false then
        some { s with snapB := some s.inbox }
      else none
  | .writeInbox false =>
      match s.snapA with
      | none => none
      | some l =>
          if s.lock = some false then
            some { s with inbox := l ++ [msg false], lock := none,
                          snapA := none, writtenA := true }
          else none
  | .writeInbox true =>
      match s.snapB with
      | none => none
      | some l =>
          if s.lock = some true then
            some { s with inbox := l ++ [msg true], lock := none,
                          snapB := none, writtenB := true }
          else none

/-- Run a whole interleaving; `none` if any event was not enabled. -/
def rmwRun (msg : Bool → Message) (s : RMWState) : List RMWEv → Option RMWState
  | [] => some s
  | e :: es =>
      match rmwStep msg s e with
      | none => none
      | some s' => rmwRun msg s' es

/-- The initial state of an interleaved execution over initial inbox `l`. -/
def rmwInit (l : List Message) : RMWState :=
  { inbox := l, lock := none, snapA := none, snapB := none,
    writtenA := false, writtenB := false }

/-- How many of the two writers have completed their write. -/
def RMWState.doneCount (s : RMWState) : Nat :=
  (if s.writtenA then 1 else 0) + (if s.writtenB then 1 else 0)

end Relay

namespace Installer

/-!
## The installer's settings configuration (`bin/install.js`)

Shallow embedding of `configureSettings` and `configureMCPProject`.  The
settings file is modelled by the shape of the JSON object those functions
read, mutate and write back; JSON properties that may be absent are
`Option`s.  `fs.readJson` failures (missing or unparsable file) are modelled
by `FileState`.
-/

/-- One hook command object: `{type, command, timeout?}`. -/
structure HookCmd where
  type : String
  command : String
  timeout : Option Nat
deriving DecidableEq, Repr

/-- One entry of a hook event list: `{matcher?, hooks?}`. -/
structure HookMatcher where
  matcher : Option String
  hooks : Option (List HookCmd)
deriving DecidableEq, Repr

/-- The `hooks` object: the `SessionStart`, `PreToolUse` and `SubagentStop`
properties (each possibly absent). -/
structure HooksConfig where
  sessionStart : Option (List HookMatcher)
  preToolUse : Option (List HookMatcher)
  subagentStop : Option (List HookMatcher)
deriving DecidableEq, Repr

/-- The `permissions` object: `{allow: [...], block: [...]}`. -/
structure PermissionsConfig where
  allow : List String
  block : List String
deriving DecidableEq, Repr

/-- One MCP server entry: `{command, args, env: {MESSAGES_DIR}}`. -/
structure McpServer where
  command : String
  args : List String
  messagesDir : String
deriving DecidableEq, Repr

/-- The settings object as read from `settings.json` / `settings.local.json`:
the properties `configureSettings` touches, each possibly absent. -/
structure Settings where
  hooks : Option HooksConfig
  permissions : Option PermissionsConfig
  mcpServers : Option (List (String × McpServer))
deriving DecidableEq, Repr

/-- The fresh `{}` object the code starts from when the file is missing or
cannot be parsed. -/
def emptySettings : Settings := ⟨none, none, none⟩

/-- Substring test on character lists (JS `String.prototype.includes`). -/
def listContainsSub (p : List Char) : List Char → Bool
  | [] => p.isEmpty
  | c :: t => if p.isPrefixOf (c :: t) then true else listContainsSub p t

/-- JS `s.includes(pat)`. -/
def strIncludes (s pat : String) : Bool := listContainsSub pat.toList s.toList

/-- `h.hooks && h.hooks.some(hook => hook.command && hook.command.includes(script))`. -/
def matcherHasScript (script : String) (h : HookMatcher) : Bool :=
  match h.hooks with
  | none => false
  | some hs => hs.any (fun hk => strIncludes hk.command script)

/-- Append `entry` to the event list unless some existing entry passes the
`check` (the `xxxExists` pattern of `configureSettings`). -/
def ensureHookEntry (check : HookMatcher → Bool) (entry : HookMatcher)
    (l : List HookMatcher) : List HookMatcher :=
  if l.any check then l else l ++ [entry]

/-- Push a permission string unless already present (JS
`if (!allow.includes(perm)) allow.push(perm)`). -/
def addPermission (allow : List String) (p : String) : List String :=
  if p ∈ allow then allow else allow ++ [p]

/-- The permission merge loop over the whole permission list. -/
def addPermissions (allow : List String) (ps : List String) : List String :=
  ps.foldl addPermission allow

/-- The `memoryPermissions` constant of `configureSettings`, selected by
installation type. -/
def memoryPermissions (installType : String) : List String :=
  if installType = "global" then
    ["Bash(mkdir:*)", "Bash(claude-memory:*)", "Bash(ls:*)", "Bash(cat:*)",
     "Bash(rm:*)",
     "Write(~/.claude/memory/**)", "Edit(~/.claude/memory/**)",
     "Read(~/.claude/memory/**)",
     "Write(~/.claude/cache/**)", "Edit(~/.claude/cache/**)",
     "Read(~/.claude/cache/**)"]
  else
    ["Bash(mkdir:*)", "Bash(claude-memory:*)", "Bash(./claude-memory:*)",
     "Bash(ls:*)", "Bash(cat:*)", "Bash(rm:*)",
     "Write(.claude/memory/**)", "Edit(.claude/memory/**)",
     "Read(.claude/memory/**)",
     "Write(.claude/cache/**)", "Edit(.claude/cache/**)",
     "Read(.claude/cache/**)"]

/-- The `memoryManagerPermissions` constant. -/
def memoryManagerPermissions : List String :=
  ["Task(memory-manager)", "Bash(grep:*)"]

/-- `allPermissions = [...memoryPermissions, ...memoryManagerPermissions]`. -/
def allPermissions (installType : String) : List String :=
  memoryPermissions installType ++ memoryManagerPermissions

/-- JS object property assignment `m[k] = v` on a string-keyed object:
update in place if the key exists, append otherwise. -/
def setServer (m : List (String × McpServer)) (k : String) (v : McpServer) :
    List (String × McpServer) :=
  if m.any (fun p => decide (p.1 = k)) then
    m.map (fun p => if p.1 = k then (k, v) else p)
  else m ++ [(k, v)]

/-- The `hookPrefix` string of `configureSettings` (`home` stands for
`process.env.HOME`; non-Windows path joining). -/
def hookPfx (installType home : String) : String :=
  if installType = "global" then "python3 " ++ home ++ "/.claude/hooks"
  else "python3 $CLAUDE_PROJECT_DIR/.claude/hooks"

/-- The `SessionStart` entry pushed for the agent-system initialization hook. -/
def sessionStartEntry (pfx : String) : HookMatcher :=
  ⟨none, some [⟨"command", pfx ++ "/initialize_agent_system.py", none⟩]⟩

/-- The `PreToolUse` entry pushed for the context cache checker hook. -/
def preToolUseEntry (pfx : String) : HookMatcher :=
  ⟨some "Task", some [⟨"command", pfx ++ "/context_cache_checker.py", none⟩]⟩

/-- The `SubagentStop` entry pushed for the memory analyzer hook. -/
def subagentStopEntry (pfx : String) : HookMatcher :=
  ⟨none, some [⟨"command", pfx ++ "/subagent_memory_analyzer.py", some 300⟩]⟩

/-- The MCP server object written for a global install. -/
def globalMcpServer (home : String) : McpServer :=
  ⟨home ++ "/.claude/mcp/agent-messaging/venv/bin/python",
   [home ++ "/.claude/mcp/agent-messaging/server.py"],
   home ++ "/.claude/messages"⟩

/-- The pure content transformation performed by `configureSettings` between
reading and writing the settings file. -/
def configureSettings (installType : String) (mcpEnabled : Bool)
    (home : String) (settings : Settings) : Settings :=
  let hooks0 := settings.hooks.getD ⟨none, none, none⟩
  let pfx := hookPfx installType home
  let ss := ensureHookEntry (matcherHasScript ("initialize_agent_system.py"))
      (sessionStartEntry pfx) (hooks0.sessionStart.getD [])
  let pt := ensureHookEntry
      (fun h => decide (h.matcher = some "Task") &&
        matcherHasScript ("context_cache_checker.py") h)
      (preToolUseEntry pfx) (hooks0.preToolUse.getD [])
  let sa := ensureHookEntry (matcherHasScript ("subagent_memory_analyzer.py"))
      (subagentStopEntry pfx) (hooks0.subagentStop.getD [])
  let perms0 := settings.permissions.getD ⟨[], []⟩
  let allow := addPermissions perms0.allow (allPermissions installType)
  let mcp :=
    if mcpEnabled ∧ installType = "global" then
      some (setServer (settings.mcpServers.getD []) ("agent-messaging")
        (globalMcpServer home))
    else settings.mcpServers
  { hooks := some ⟨some ss, some pt, some sa⟩,
    permissions := some ⟨allow, perms0.block⟩,
    mcpServers := mcp }

/-- The state of a JSON file on disk before the installer touches it. -/
inductive FileState (α : Type) where
  | missing
  | unparsable (raw : String)
  | parsed (val : α)

/-- The load step of `configureSettings` / `configureMCPProject`: a missing
file, or one whose parse throws, yields the default fresh object. -/
def FileState.loadOr {α : Type} (default : α) : FileState α → α
  | .parsed v => v
  | _ => default

/-- `configureSettings` end to end: load (or start fresh), transform, and the
resulting file content. -/
def configureSettingsFile (installType : String) (mcpEnabled : Bool)
    (home : String) (file : FileState Settings) : Settings :=
  configureSettings installType mcpEnabled home (file.loadOr emptySettings)

/-- The project `.mcp.json` object: the `mcpServers` property. -/
structure McpConfig where
  mcpServers : Option (List (String × McpServer))
deriving DecidableEq, Repr

/-- The agent-messaging server entry `configureMCPProject` writes (paths
relative to the project root, non-Windows). -/
def projectMcpServer : McpServer :=
  ⟨".claude/mcp/agent-messaging/venv/bin/python",
   [".claude/mcp/agent-messaging/server.py"],
   ".claude/messages"⟩

/-- `configureMCPProject` end to end: returns `none` when `mcpEnabled` is
false (the function returns without writing), otherwise the `.mcp.json`
content written. -/
def configureMCPProject (mcpEnabled : Bool) (file : FileState McpConfig) :
    Option McpConfig :=
  if mcpEnabled then
    let cfg := file.loadOr ⟨none⟩
    some ⟨some (setServer (cfg.mcpServers.getD []) ("agent-messaging")
      projectMcpServer)⟩
  else none

end Installer

namespace Relay

/-! ## Scenario of §8: three messages to `test-writer` -/

/-- The roster of the end-to-end scenario. -/
def scenarioRoster : List String := ["test-writer"]

/-- Store after the first create of the scenario (body `A`, priority medium). -/
def scenarioStore1 : Store :=
  (create_message scenarioRoster emptyStore ("orchestrator") ("test-writer")
    ("A") ("medium") [] 1).2

/-- Store after the second create of the scenario (body `B`, priority high). -/
def scenarioStore2 : Store :=
  (create_message scenarioRoster scenarioStore1 ("orchestrator") ("test-writer")
    ("B") ("high") [] 2).2

/-- Store after the third create of the scenario (body `C`, priority low). -/
def scenarioStore3 : Store :=
  (create_message scenarioRoster scenarioStore2 ("orchestrator") ("test-writer")
    ("C") ("low") [] 3).2

/-- Claim C1: for every recipient and message set, the list operation behind
`read_messages` returns exactly the selected messages (as a permutation of
the selection), sorted with primary key the priority rank (high before
medium before low) and secondary key the timestamp ascending; in particular
the three scenario messages created in order medium/high/low with bodies
`A`, `B`, `C` come back in body order `B`, `A`, `C`. -/
theorem list_ordered_by_priority_then_timestamp :
    (∀ (st : Store) (agent : String) (pf : Option Priority) (ir mk : Bool),
        List.Sorted msgLE (st.list agent pf ir mk).1 ∧
        (st.list agent pf ir mk).1.Perm
          (if mk then ((st.inboxes agent).filter (selects pf ir)).map markRead
           else (st.inboxes agent).filter (selects pf ir))) ∧
    bodiesOf (read_messages scenarioStore3 ("test-writer") true none false) =
      ["B", "A", "C"] := by
  refine ⟨fun st agent pf ir mk => ⟨?_, ?_⟩, ?_⟩
  · exact List.sorted_insertionSort msgLE _
  · exact List.perm_insertionSort msgLE _
  · decide

/-- Claim C2: `read_messages(agent, mark_as_read=True, include_read=False)`
delegates to the store list operation, marks every returned message read,
persists the marked messages in the recipient's inbox, and a second
identical call returns the empty result set. -/
theorem read_messages_consume_once (st : Store) (agent : String)
    (pf : Option Priority) (h : agent ≠ "") :
    read_messages st agent true pf false =
      Except.ok (st.list agent pf false true) ∧
    (∀ m ∈ (st.list agent pf false true).1, m.read = true) ∧
    (∀ m ∈ (st.list agent pf false true).1,
        m ∈ (st.list agent pf false true).2.inboxes agent) ∧
    ((st.list agent pf false true).2.list agent pf false true).1 = [] := by
  refine ⟨by simp [read_messages, h], ?_, ?_, ?_⟩
  · intro m hm
    simp only [Store.list, sortMessages] at hm
    rw [(List.perm_insertionSort msgLE _).mem_iff] at hm
    simp only [if_true] at hm
    obtain ⟨a, _, rfl⟩ := List.mem_map.mp hm
    rfl
  · intro m hm
    simp only [Store.list, sortMessages] at hm ⊢
    rw [(List.perm_insertionSort msgLE _).mem_iff] at hm
    simp only [if_true] at hm ⊢
    obtain ⟨a, ha, rfl⟩ := List.mem_map.mp hm
    obtain ⟨hain, hasel⟩ := List.mem_filter.mp ha
    simp only [Store.setInbox, if_pos rfl]
    exact List.mem_map.mpr ⟨a, hain, by rw [if_pos hasel]⟩
  · simp only [Store.list, sortMessages, if_true, Store.setInbox, if_pos rfl]
    have hnil :
        ((st.inboxes agent).map
            (fun m => if selects pf false m then markRead m else m)).filter
          (selects pf false) = [] := by
      refine List.filter_eq_nil_iff.mpr ?_
      intro x hx
      obtain ⟨a, _, rfl⟩ := List.mem_map.mp hx
      by_cases hsel : selects pf false a
      · rw [if_pos hsel]
        simp [selects, markRead]
      · rw [if_neg hsel]
        exact fun hcon => hsel hcon
    rw [hnil]
    rfl

/-- Witness for C2 at a concrete agent and store. -/
theorem read_messages_consume_once_witness :
    ((scenarioStore3.list ("test-writer") none false true).2.list
        ("test-writer") none false true).1 = [] :=
  (read_messages_consume_once scenarioStore3 ("test-writer") none
    (by decide)).2.2.2

/-- Claim C6: a `create_message` call whose `to_agent` is empty, whose
`message` body is empty, or whose priority string is not one of `high`,
`medium`, `low`, fails with the generic invalid-argument outcome and leaves
the store (hence the recipient's inbox) exactly as it was. -/
theorem create_invalid_argument_rejected (roster : List String) (st : Store)
    (f t b p : String) (cf : List String) (ts : Nat)
    (h : t = "" ∨ b = "" ∨ parsePriority p = none) :
    (create_message roster st f t b p cf ts).1.isInvalidArgument = true ∧
    (create_message roster st f t b p cf ts).2 = st := by
  unfold create_message
  by_cases hf : f = ""
  · simp [hf, CreateOutcome.isInvalidArgument]
  · rcases h with ht | hb | hp
    · simp [hf, ht, CreateOutcome.isInvalidArgument]
    · by_cases ht : t = "" <;>
        simp [hf, ht, hb, CreateOutcome.isInvalidArgument]
    · by_cases ht : t = "" <;> by_cases hb : b = "" <;>
        simp [hf, ht, hb, hp, CreateOutcome.isInvalidArgument]

/-- Witness for C6 at a concrete invalid call (empty recipient). -/
theorem create_invalid_argument_witness :
    (create_message [] emptyStore ("orchestrator") ("") ("hi") ("medium") [] 0).2 =
      emptyStore :=
  (create_invalid_argument_rejected [] emptyStore ("orchestrator") ("") ("hi")
    ("medium") [] 0 (Or.inl rfl)).2

/-- Claim C8: when no configuration roots exist, `discover_agents` returns
the empty sequence (and, being a total function, never raises), and
`list_agents` does not fail: it returns the explanatory empty-state message
rather than an error. -/
theorem discovery_missing_roots_graceful (fs : ConfigFS)
    (hp : fs.projectRoot = none) (hu : fs.userRoot = none) :
    discover_agents fs = [] ∧ list_agents fs = noAgentsMessage := by
  have hd : discover_agents fs = [] := by
    unfold discover_agents
    rw [hp, hu]
    rfl
  refine ⟨hd, ?_⟩
  unfold list_agents
  rw [hd]
  rfl

/-- Witness for C8 at the filesystem with both configuration roots absent. -/
theorem discovery_missing_roots_witness :
    list_agents ⟨none, none⟩ = noAgentsMessage :=
  (discovery_missing_roots_graceful ⟨none, none⟩ rfl rfl).2

/-- Claim C4: `archive(agent, older_than_days=N)` (exposed as
`clear_messages`) moves exactly the messages that are read and older than
the cutoff into the agent's archive collection and returns the number moved
(zero is not an error — the handler still succeeds); a moved message no
longer appears in list results even with `include_read=True`; an unread
message is never moved regardless of age and still appears in list
results. -/
theorem archive_moves_exactly_read_and_old (st : Store) (agent : String)
    (N now : Nat) (h : agent ≠ "") :
    (st.archive agent N now).2.inboxes agent =
        (st.inboxes agent).filter (fun m => !(archivable N now m)) ∧
    (st.archive agent N now).2.archives agent =
        st.archives agent ++ (st.inboxes agent).filter (archivable N now) ∧
    (st.archive agent N now).1 =
        ((st.inboxes agent).filter (archivable N now)).length ∧
    (∀ m ∈ st.inboxes agent, archivable N now m = true →
        m ∈ (st.archive agent N now).2.archives agent ∧
        m ∉ ((st.archive agent N now).2.list agent none true false).1) ∧
    (∀ m ∈ st.inboxes agent, m.read = false →
        m ∈ (st.archive agent N now).2.inboxes agent ∧
        m ∈ ((st.archive agent N now).2.list agent none false false).1) ∧
    clear_messages st agent (Int.ofNat N) now =
        Except.ok (st.archive agent N now) := by
  have hinb : (st.archive agent N now).2.inboxes agent =
      (st.inboxes agent).filter (fun m => !(archivable N now m)) := by
    simp [Store.archive, Store.setInbox, Store.setArchive]
  have harc : (st.archive agent N now).2.archives agent =
      st.archives agent ++ (st.inboxes agent).filter (archivable N now) := by
    simp [Store.archive, Store.setInbox, Store.setArchive]
  refine ⟨hinb, harc, rfl, ?_, ?_, ?_⟩
  · intro m hm hold
    constructor
    · rw [harc]
      exact List.mem_append_right _ (List.mem_filter.mpr ⟨hm, hold⟩)
    · intro hcon
      simp only [Store.list, sortMessages] at hcon
      rw [(List.perm_insertionSort msgLE _).mem_iff] at hcon
      simp only [if_neg Bool.false_ne_true] at hcon
      have hmem := (List.mem_filter.mp hcon).1
      rw [hinb] at hmem
      have := (List.mem_filter.mp hmem).2
      rw [hold] at this
      exact absurd this (by decide)
  · intro m hm hunread
    have hnot : archivable N now m = false := by
      simp [archivable, hunread]
    have hkept : m ∈ (st.archive agent N now).2.inboxes agent := by
      rw [hinb]
      exact List.mem_filter.mpr ⟨hm, by rw [hnot]; rfl⟩
    refine ⟨hkept, ?_⟩
    simp only [Store.list, sortMessages]
    rw [(List.perm_insertionSort msgLE _).mem_iff]
    simp only [if_neg Bool.false_ne_true]
    exact List.mem_filter.mpr ⟨hkept, by simp [selects, hunread]⟩
  · unfold clear_messages
    rw [if_neg h, if_neg (by simp)]
    rfl

/-- Witness for C4 at a concrete agent and store. -/
theorem archive_moves_witness :
    clear_messages emptyStore ("test-writer") (Int.ofNat 7) 0 =
      Except.ok (emptyStore.archive ("test-writer") 7 0) :=
  (archive_moves_exactly_read_and_old emptyStore ("test-writer") 7 0
    (by decide)).2.2.2.2.2

/-! ## Per-message invariants (claim C5) -/

/-- Everything of a message but the `read` flag. -/
def sameCore (m m' : Message) : Prop :=
  m'.id = m.id ∧ m'.from_ = m.from_ ∧ m'.to_ = m.to_ ∧ m'.body = m.body ∧
  m'.priority = m.priority ∧ m'.timestamp = m.timestamp ∧
  m'.context_files = m.context_files

/-- The per-message preservation relation between a store and its successor:
every inbox message survives with unchanged immutable fields and a read flag
that only moves false → true, or was read and has moved to the same agent's
archive; archived messages are never deleted. -/
def Preserves (st st' : Store) : Prop :=
  (∀ a m, m ∈ st.inboxes a →
      (∃ m', m' ∈ st'.inboxes a ∧ sameCore m m' ∧
        (m.read = true → m'.read = true)) ∨
      (m.read = true ∧ m ∈ st'.archives a)) ∧
  (∀ a m, m ∈ st.archives a → m ∈ st'.archives a)

/-- `Preserves` is reflexive. -/
theorem preserves_refl (st : Store) : Preserves st st := by
  refine ⟨fun a m hm => Or.inl ⟨m, hm, ?_, fun h => h⟩, fun a m hm => hm⟩
  exact ⟨rfl, rfl, rfl, rfl, rfl, rfl, rfl⟩

/-- Appending a message to one inbox preserves all messages. -/
theorem preserves_setInbox_append (st : Store) (t : String) (m : Message) :
    Preserves st (st.setInbox t (st.inboxes t ++ [m])) := by
  constructor
  · intro a x hx
    refine Or.inl ⟨x, ?_, ⟨rfl, rfl, rfl, rfl, rfl, rfl, rfl⟩, fun h => h⟩
    by_cases hat : a = t
    · subst hat
      simp only [Store.setInbox, if_pos rfl]
      exact List.mem_append_left _ hx
    · simpa only [Store.setInbox, if_neg hat] using hx
  · intro a x hx
    exact hx

/-- Claim C5: every relay operation preserves the per-message invariants —
`create_message` only appends; the list operation only flips `read` from
false to true, leaving every other field unchanged; `archive` moves a
message only when it is read, deleting nothing; and every message a list
call returns corresponds to an inbox message with the same immutable
fields (so archived messages, which live outside the inbox, are never
resurfaced by list). -/
theorem relay_preserves_message_invariants :
    (∀ (roster : List String) (st : Store) (f t b p : String)
        (cf : List String) (ts : Nat),
        Preserves st (create_message roster st f t b p cf ts).2) ∧
    (∀ (st : Store) (agent : String) (pf : Option Priority) (ir mk : Bool),
        Preserves st (st.list agent pf ir mk).2) ∧
    (∀ (st : Store) (agent : String) (N now : Nat),
        Preserves st (st.archive agent N now).2) ∧
    (∀ (st : Store) (agent : String) (pf : Option Priority) (ir mk : Bool),
        ∀ m ∈ (st.list agent pf ir mk).1,
          ∃ m₀, m₀ ∈ st.inboxes agent ∧ sameCore m₀ m) := by
  refine ⟨?_, ?_, ?_, ?_⟩
  · intro roster st f t b p cf ts
    unfold create_message
    by_cases hf : f = ""
    · simp only [if_pos hf]
      exact preserves_refl st
    · rw [if_neg hf]
      by_cases ht : t = ""
      · rw [if_pos ht]
        exact preserves_refl st
      · rw [if_neg ht]
        by_cases hb : b = ""
        · rw [if_pos hb]
          exact preserves_refl st
        · rw [if_neg hb]
          cases hp : parsePriority p with
          | none => exact preserves_refl st
          | some pr =>
            dsimp only
            by_cases hr : t ∈ roster
            · rw [if_pos hr]
              exact preserves_setInbox_append st t _
            · rw [if_neg hr]
              exact preserves_refl st
  · intro st agent pf ir mk
    constructor
    · intro a m hm
      by_cases hat : a = agent
      · subst hat
        by_cases hmk : mk = true
        · subst hmk
          simp only [Store.list, Store.setInbox, if_pos rfl, if_true]
          refine Or.inl ⟨if selects pf ir m then markRead m else m,
            List.mem_map.mpr ⟨m, hm, rfl⟩, ?_, ?_⟩
          · by_cases hsel : selects pf ir m
            · rw [if_pos hsel]
              exact ⟨rfl, rfl, rfl, rfl, rfl, rfl, rfl⟩
            · rw [if_neg hsel]
              exact ⟨rfl, rfl, rfl, rfl, rfl, rfl, rfl⟩
          · intro hr
            by_cases hsel : selects pf ir m
            · rw [if_pos hsel]
              rfl
            · rw [if_neg hsel]
              exact hr
        · have hmk' : mk = false := by
            cases mk
            · rfl
            · exact absurd rfl hmk
          subst hmk'
          simp only [Store.list, Store.setInbox, if_pos rfl, if_false]
          exact Or.inl ⟨m, hm, ⟨rfl, rfl, rfl, rfl, rfl, rfl, rfl⟩, fun h => h⟩
      · refine Or.inl ⟨m, ?_, ⟨rfl, rfl, rfl, rfl, rfl, rfl, rfl⟩, fun h => h⟩
        simpa only [Store.list, Store.setInbox, if_neg hat] using hm
    · intro a m hm
      exact hm
  · intro st agent N now
    constructor
    · intro a m hm
      by_cases hat : a = agent
      · subst hat
        by_cases hold : archivable N now m = true
        · refine Or.inr ⟨(Bool.and_eq_true _ _).mp hold |>.1, ?_⟩
          simp only [Store.archive, Store.setArchive, Store.setInbox, if_pos rfl]
          exact List.mem_append_right _ (List.mem_filter.mpr ⟨hm, hold⟩)
        · refine Or.inl ⟨m, ?_, ⟨rfl, rfl, rfl, rfl, rfl, rfl, rfl⟩, fun h => h⟩
          simp only [Store.archive, Store.setArchive, Store.setInbox, if_pos rfl]
          exact List.mem_filter.mpr ⟨hm, by simp [hold]⟩
      · refine Or.inl ⟨m, ?_, ⟨rfl, rfl, rfl, rfl, rfl, rfl, rfl⟩, fun h => h⟩
        simpa only [Store.archive, Store.setArchive, Store.setInbox,
          if_neg hat] using hm
    · intro a m hm
      by_cases hat : a = agent
      · subst hat
        simp only [Store.archive, Store.setArchive, Store.setInbox, if_pos rfl]
        exact List.mem_append_left _ hm
      · simpa only [Store.archive, Store.setArchive, Store.setInbox,
          if_neg hat] using hm
  · intro st agent pf ir mk m hm
    simp only [Store.list, sortMessages] at hm
    rw [(List.perm_insertionSort msgLE _).mem_iff] at hm
    by_cases hmk : mk = true
    · subst hmk
      simp only [if_true] at hm
      obtain ⟨a, ha, rfl⟩ := List.mem_map.mp hm
      exact ⟨a, (List.mem_filter.mp ha).1, rfl, rfl, rfl, rfl, rfl, rfl, rfl⟩
    · have hmk' : mk = false := by
        cases mk
        · rfl
        · exact absurd rfl hmk
      subst hmk'
      simp only [if_neg Bool.false_ne_true] at hm
      exact ⟨m, (List.mem_filter.mp hm).1, rfl, rfl, rfl, rfl, rfl, rfl, rfl⟩

/-! ## Closest-match suggestions (claim C3) -/

/-- A roster entry within distance `d` is collected by `collectByDist`. -/
theorem mem_collectByDist (roster : List String) (name r : String)
    (hr : r ∈ roster) :
    ∀ d : Nat, levenshtein name r ≤ d → r ∈ collectByDist roster name d := by
  intro d
  induction d with
  | zero =>
    intro hd
    unfold collectByDist
    exact List.mem_filter.mpr ⟨hr, by simp [Nat.le_zero.mp hd]⟩
  | succ d ih =>
    intro hd
    unfold collectByDist
    by_cases hle : levenshtein name r ≤ d
    · exact List.mem_append_left _ (ih hle)
    · have heq : levenshtein name r = d + 1 := by omega
      exact List.mem_append_right _ (List.mem_filter.mpr ⟨hr, by simp [heq]⟩)

/-- Counting helper: entries at distance at most `d` plus entries at exactly
`d + 1` are the entries at distance at most `d + 1`. -/
theorem filter_le_succ_length (l : List String) (f : String → Nat) (d : Nat) :
    (l.filter (fun r => decide (f r ≤ d))).length +
      (l.filter (fun r => decide (f r = d + 1))).length =
      (l.filter (fun r => decide (f r ≤ d + 1))).length := by
  induction l with
  | nil => rfl
  | cons x t ih =>
    simp only [List.filter_cons]
    by_cases h1 : f x ≤ d <;> by_cases h2 : f x = d + 1
    · exact absurd h2 (by omega)
    · have h3 : f x ≤ d + 1 := by omega
      simp [h1, h2, h3]
      omega
    · have h3 : f x ≤ d + 1 := by omega
      simp [h1, h2, h3]
      omega
    · have h3 : ¬(f x ≤ d + 1) := by omega
      simp [h1, h2, h3]
      omega

/-- `collectByDist` collects each qualifying entry exactly once: its length
is the number of roster entries within distance `d`. -/
theorem length_collectByDist (roster : List String) (name : String) :
    ∀ d, (collectByDist roster name d).length =
      (roster.filter (fun r => decide (levenshtein name r ≤ d))).length := by
  intro d
  induction d with
  | zero =>
    unfold collectByDist
    congr 1
    apply List.filter_congr
    intro x _
    simp [Nat.le_zero]
  | succ d ih =>
    unfold collectByDist
    rw [List.length_append, ih,
      filter_le_succ_length roster (fun s => levenshtein name s) d]

/-- `collectByDist` at a smaller bound is a prefix of `collectByDist` at a
larger bound. -/
theorem collect_prefix_le (roster : List String) (name : String) :
    ∀ {d e : Nat}, d ≤ e → ∃ rest,
      collectByDist roster name e = collectByDist roster name d ++ rest := by
  intro d e
  induction e with
  | zero =>
    intro hde
    have : d = 0 := Nat.le_zero.mp hde
    subst this
    exact ⟨[], (List.append_nil _).symm⟩
  | succ e ih =>
    intro hde
    by_cases hd : d = e + 1
    · subst hd
      exact ⟨[], (List.append_nil _).symm⟩
    · have hle : d ≤ e := by omega
      obtain ⟨rest, hrest⟩ := ih hle
      have he : collectByDist roster name (e + 1) =
          collectByDist roster name e ++
            roster.filter (fun r => decide (levenshtein name r = e + 1)) := rfl
      exact ⟨rest ++ _, by rw [he, hrest, List.append_assoc]⟩

/-- Membership in a take, through a short prefix. -/
theorem mem_take_of_prefix {α : Type} {x : α} {l rest : List α} {n : Nat}
    (hx : x ∈ l) (hlen : l.length ≤ n) : x ∈ (l ++ rest).take n := by
  rw [List.take_append_eq_append_take]
  refine List.mem_append_left _ ?_
  rw [List.take_of_length_le hlen]
  exact hx

/-- A roster entry within the small edit distance that is among the (at
most) 3 closest entries is suggested. -/
theorem mem_closestMatches {roster : List String} {name r : String}
    (hr : r ∈ roster) (hd : levenshtein name r ≤ smallDistance)
    (hc : (roster.filter
        (fun x => decide (levenshtein name x ≤ levenshtein name r))).length ≤ 3) :
    r ∈ closestMatches roster name := by
  obtain ⟨rest, hrest⟩ := collect_prefix_le roster name hd
  unfold closestMatches
  rw [hrest]
  refine mem_take_of_prefix (mem_collectByDist roster name r hr _ le_rfl) ?_
  rw [length_collectByDist]
  exact hc

/-- Claim C3: an otherwise-valid `create_message` whose recipient is not
among the identities discovered at call time fails without creating a
message (the store is unchanged) and with the distinguished structured
unknown-recipient outcome — carrying the full current roster, the
closest-match suggestions (at most 3 of them), and the retry template
filled in from the caller's own input; every roster entry within the small
edit distance of the given recipient that is among the (at most 3) closest
entries appears in the suggestion list. -/
theorem create_unknown_recipient_structured (roster : List String) (st : Store)
    (f t b p : String) (cf : List String) (ts : Nat)
    (hf : f ≠ "") (ht : t ≠ "") (hb : b ≠ "")
    (hp : (parsePriority p).isSome = true) (hroster : t ∉ roster) :
    create_message roster st f t b p cf ts =
      (CreateOutcome.unknownRecipient roster (closestMatches roster t)
        (retryTemplate f b), st) ∧
    (closestMatches roster t).length ≤ 3 ∧
    (∀ r ∈ roster, levenshtein t r ≤ smallDistance →
        (roster.filter
          (fun x => decide (levenshtein t x ≤ levenshtein t r))).length ≤ 3 →
        r ∈ closestMatches roster t) := by
  refine ⟨?_, ?_, ?_⟩
  · unfold create_message
    rw [if_neg hf, if_neg ht, if_neg hb]
    cases hps : parsePriority p with
    | none => rw [hps] at hp; exact absurd hp (by simp)
    | some pr =>
      dsimp only
      rw [if_neg hroster]
  · exact List.length_take_le 3 _
  · intro r hr hd hc
    exact mem_closestMatches hr hd hc

/-- Witness for C3: the spec's own example — roster `["api-designer"]`,
misspelt recipient `"api-desginer"` — gets the right suggestion. -/
theorem create_unknown_recipient_witness :
    "api-designer" ∈ closestMatches ["api-designer"] ("api-desginer") :=
  (create_unknown_recipient_structured ["api-designer"] emptyStore
      ("orchestrator") ("api-desginer") ("hello") ("medium") [] 0
      (by decide) (by decide) (by decide) (by decide) (by decide)).2.2
    ("api-designer") (by decide) (by decide) (by decide)

/-! ## No lost writes under the per-recipient critical section (claim C7) -/

/-- The execution invariant: the inbox holds the initial messages plus one
per completed writer; the lock holder has not yet written; and a snapshot is
held only by the lock holder and equals the current durable inbox (nobody
can have written under it while the lock is held). -/
def rmwInv (n0 : Nat) (s : RMWState) : Prop :=
  s.inbox.length = n0 + s.doneCount ∧
  (s.lock = some false → s.writtenA = false) ∧
  (s.lock = some true → s.writtenB = false) ∧
  (∀ l, s.snapA = some l → s.lock = some false ∧ l = s.inbox) ∧
  (∀ l, s.snapB = some l → s.lock = some true ∧ l = s.inbox)

/-- Every enabled event preserves the execution invariant. -/
theorem rmwStep_inv {msg : Bool → Message} {n0 : Nat} {s s' : RMWState}
    {e : RMWEv} (h : rmwStep msg s e = some s') (hi : rmwInv n0 s) :
    rmwInv n0 s' := by
  obtain ⟨hlen, hwA, hwB, hsA, hsB⟩ := hi
  cases e with
  | acquire i =>
    cases i with
    | false =>
      simp only [rmwStep] at h
      split at h
      case isFalse => exact absurd h (by simp)
      case isTrue hc =>
        obtain ⟨hl0, hw0, hs0⟩ := hc
        obtain rfl := Option.some.inj h
        refine ⟨hlen, fun _ => hw0, ?_, ?_, ?_⟩
        · intro hj
          exact absurd (Option.some.inj hj) (by simp)
        · intro l hl
          exact absurd ((hsA l hl).1.symm.trans hl0) (by simp)
        · intro l hl
          exact absurd ((hsB l hl).1.symm.trans hl0) (by simp)
    | true =>
      simp only [rmwStep] at h
      split at h
      case isFalse => exact absurd h (by simp)
      case isTrue hc =>
        obtain ⟨hl0, hw0, hs0⟩ := hc
        obtain rfl := Option.some.inj h
        refine ⟨hlen, ?_, fun _ => hw0, ?_, ?_⟩
        · intro hj
          exact absurd (Option.some.inj hj) (by simp)
        · intro l hl
          exact absurd ((hsA l hl).1.symm.trans hl0) (by simp)
        · intro l hl
          exact absurd ((hsB l hl).1.symm.trans hl0) (by simp)
  | readInbox i =>
    cases i with
    | false =>
      simp only [rmwStep] at h
      split at h
      case isFalse => exact absurd h (by simp)
      case isTrue hc =>
        obtain ⟨hl0, hs0, hw0⟩ := hc
        obtain rfl := Option.some.inj h
        refine ⟨hlen, fun _ => hw0, ?_, ?_, ?_⟩
        · intro hj
          rw [hl0] at hj
          exact absurd (Option.some.inj hj) (by simp)
        · intro l hl
          obtain rfl := (Option.some.inj hl).symm
          exact ⟨hl0, rfl⟩
        · intro l hl
          have := (hsB l hl).1
          rw [hl0] at this
          exact absurd (Option.some.inj this) (by simp)
    | true =>
      simp only [rmwStep] at h
      split at h
      case isFalse => exact absurd h (by simp)
      case isTrue hc =>
        obtain ⟨hl0, hs0, hw0⟩ := hc
        obtain rfl := Option.some.inj h
        refine ⟨hlen, ?_, fun _ => hw0, ?_, ?_⟩
        · intro hj
          rw [hl0] at hj
          exact absurd (Option.some.inj hj) (by simp)
        · intro l hl
          have := (hsA l hl).1
          rw [hl0] at this
          exact absurd (Option.some.inj this) (by simp)
        · intro l hl
          obtain rfl := (Option.some.inj hl).symm
          exact ⟨hl0, rfl⟩
  | writeInbox i =>
    cases i with
    | false =>
      simp only [rmwStep] at h
      split at h
      next => exact absurd h (by simp)
      next l hsn =>
        by_cases hlk : s.lock = some false
        case neg =>
          rw [if_neg hlk] at h
          exact absurd h (by simp)
        case pos =>
          rw [if_pos hlk] at h
          obtain ⟨-, hlinb⟩ := hsA l hsn
          have hw0 : s.writtenA = false := hwA hlk
          obtain rfl := Option.some.inj h
          refine ⟨?_, ?_, ?_, ?_, ?_⟩
          · subst hlinb
            cases hwb : s.writtenB <;>
              simp [RMWState.doneCount, hw0, hwb] at hlen ⊢ <;> omega
          · intro hj
            exact absurd hj (by simp)
          · intro hj
            exact absurd hj (by simp)
          · intro l' hl'
            exact absurd hl' (by simp)
          · intro l' hl'
            have := (hsB l' hl').1
            rw [hlk] at this
            exact absurd (Option.some.inj this) (by simp)
    | true =>
      simp only [rmwStep] at h
      split at h
      next => exact absurd h (by simp)
      next l hsn =>
        by_cases hlk : s.lock = some true
        case neg =>
          rw [if_neg hlk] at h
          exact absurd h (by simp)
        case pos =>
          rw [if_pos hlk] at h
          obtain ⟨-, hlinb⟩ := hsB l hsn
          have hw0 : s.writtenB = false := hwB hlk
          obtain rfl := Option.some.inj h
          refine ⟨?_, ?_, ?_, ?_, ?_⟩
          · subst hlinb
            cases hwa : s.writtenA <;>
              simp [RMWState.doneCount, hw0, hwa] at hlen ⊢ <;> omega
          · intro hj
            exact absurd hj (by simp)
          · intro hj
            exact absurd hj (by simp)
          · intro l' hl'
            have := (hsA l' hl').1
            rw [hlk] at this
            exact absurd (Option.some.inj this) (by simp)
          · intro l' hl'
            exact absurd hl' (by simp)


/-- Whole executions preserve the invariant. -/
theorem rmwRun_inv {msg : Bool → Message} {n0 : Nat} :
    ∀ {evs : List RMWEv} {s s' : RMWState}, rmwRun msg s evs = some s' →
      rmwInv n0 s → rmwInv n0 s' := by
  intro evs
  induction evs with
  | nil =>
    intro s s' h hi
    obtain rfl := Option.some.inj h
    exact hi
  | cons e es ih =>
    intro s s' h hi
    unfold rmwRun at h
    cases hstep : rmwStep msg s e with
    | none => rw [hstep] at h; exact absurd h (by simp)
    | some s1 =>
      rw [hstep] at h
      exact ih h (rmwStep_inv hstep hi)

/-- Claim C7: two concurrent `create` cycles on the same recipient's
collection, modelled as interleaved read-modify-write events under the
mandated per-recipient critical section, never lose a message: any
completed execution in which both writers have written leaves exactly the
initial messages plus two — never fewer than the number of attempted
creates. -/
theorem concurrent_creates_never_lost (msg : Bool → Message)
    (l : List Message) (evs : List RMWEv) (sF : RMWState)
    (hrun : rmwRun msg (rmwInit l) evs = some sF)
    (hA : sF.writtenA = true) (hB : sF.writtenB = true) :
    sF.inbox.length = l.length + 2 := by
  have hinit : rmwInv l.length (rmwInit l) := by
    refine ⟨by simp [rmwInit, RMWState.doneCount], ?_, ?_, ?_, ?_⟩ <;>
      simp [rmwInit]
  have hf := rmwRun_inv hrun hinit
  have hlen := hf.1
  simp [RMWState.doneCount, hA, hB] at hlen
  omega

/-- The two concrete messages of the C7 witness execution. -/
def rmwWitnessMsg : Bool → Message := fun i =>
  if i then mkMessage ("writer-b") ("shared") ("second") Priority.medium [] 2
  else mkMessage ("writer-a") ("shared") ("first") Priority.medium [] 1

/-- The serial interleaving of the C7 witness execution. -/
def rmwWitnessEvs : List RMWEv :=
  [RMWEv.acquire false, RMWEv.readInbox false, RMWEv.writeInbox false,
   RMWEv.acquire true, RMWEv.readInbox true, RMWEv.writeInbox true]

/-- Witness for C7 on a concrete completed execution. -/
theorem concurrent_creates_never_lost_witness :
    (RMWState.mk [rmwWitnessMsg false, rmwWitnessMsg true] none none none
      true true).inbox.length = ([] : List Message).length + 2 :=
  concurrent_creates_never_lost rmwWitnessMsg [] rmwWitnessEvs _
    (by decide) rfl rfl

end Relay


namespace Installer

/-- A list is a prefix of itself. -/
theorem isPrefixOf_self (p : List Char) : p.isPrefixOf p = true := by
  induction p with
  | nil => rfl
  | cons c t ih => simp [List.isPrefixOf, ih]

/-- A suffix occurrence is found by the substring scan. -/
theorem listContainsSub_append (p a : List Char) :
    listContainsSub p (a ++ p) = true := by
  induction a with
  | nil =>
    simp only [List.nil_append]
    cases p with
    | nil => rfl
    | cons c t =>
      unfold listContainsSub
      simp [isPrefixOf_self]
  | cons c t ih =>
    simp only [List.cons_append]
    unfold listContainsSub
    by_cases hp : p.isPrefixOf (c :: (t ++ p)) = true
    · simp [hp]
    · simp [hp, ih]

/-- `toList` distributes over string append. -/
theorem toList_append_str (a b : String) :
    (a ++ b).toList = a.toList ++ b.toList :=
  String.data_append a b

/-- If the character data of `s` ends in `pat`, then `s.includes(pat)`. -/
theorem strIncludes_of_toList_append (s pat : String) (a : List Char)
    (h : s.toList = a ++ pat.toList) : strIncludes s pat = true := by
  unfold strIncludes
  rw [h]
  exact listContainsSub_append _ _

/-- A command of the shape `pfx ++ "/<script>"` contains `<script>`. -/
theorem strIncludes_slash (pfx lit pat : String)
    (hlit : lit.toList = '/' :: pat.toList) :
    strIncludes (pfx ++ lit) pat = true := by
  apply strIncludes_of_toList_append _ _ (pfx.toList ++ ['/'])
  rw [toList_append_str, hlit, List.append_assoc]
  rfl

/-- After ensuring, some entry passes the check. -/
theorem any_ensureHookEntry (check : HookMatcher → Bool) (entry : HookMatcher)
    (l : List HookMatcher) (h : check entry = true) :
    (ensureHookEntry check entry l).any check = true := by
  unfold ensureHookEntry
  by_cases hl : l.any check = true
  · rw [if_pos hl]
    exact hl
  · rw [if_neg hl]
    simp [h]

/-- Ensuring is a no-op when some entry already passes the check. -/
theorem ensureHookEntry_stable (check : HookMatcher → Bool)
    (entry : HookMatcher) (l : List HookMatcher) (h : l.any check = true) :
    ensureHookEntry check entry l = l := by
  unfold ensureHookEntry
  exact if_pos h

/-- Pushing a permission preserves membership. -/
theorem mem_addPermission (al : List String) (p x : String) (h : x ∈ al) :
    x ∈ addPermission al p := by
  unfold addPermission
  by_cases hp : p ∈ al
  · rw [if_pos hp]
    exact h
  · rw [if_neg hp]
    exact List.mem_append_left _ h

/-- The permission merge loop preserves membership. -/
theorem mem_addPermissions (ps : List String) :
    ∀ (al : List String) (x : String), x ∈ al → x ∈ addPermissions al ps := by
  induction ps with
  | nil => exact fun al x h => h
  | cons q qs ih =>
    intro al x h
    exact ih _ _ (mem_addPermission al q x h)

/-- Every merged permission is present after the merge loop. -/
theorem self_mem_addPermissions (ps : List String) :
    ∀ (al : List String) (p : String), p ∈ ps → p ∈ addPermissions al ps := by
  induction ps with
  | nil =>
    intro al p h
    cases h
  | cons q qs ih =>
    intro al p h
    rcases List.mem_cons.mp h with rfl | hq
    · refine mem_addPermissions qs _ _ ?_
      unfold addPermission
      by_cases hp : p ∈ al
      · rw [if_pos hp]
        exact hp
      · rw [if_neg hp]
        exact List.mem_append_right _ (List.mem_singleton.mpr rfl)
    · exact ih _ _ hq

/-- The merge loop is a no-op when every permission is already present. -/
theorem addPermissions_no_op (ps : List String) :
    ∀ al : List String, (∀ p ∈ ps, p ∈ al) → addPermissions al ps = al := by
  induction ps with
  | nil => exact fun _ _ => rfl
  | cons q qs ih =>
    intro al h
    have hq : q ∈ al := h q (List.mem_cons_self q qs)
    show addPermissions (addPermission al q) qs = al
    rw [show addPermission al q = al from by unfold addPermission; exact if_pos hq]
    exact ih al (fun p hp => h p (List.mem_cons_of_mem q hp))

/-- The permission merge loop is idempotent. -/
theorem addPermissions_idem (al ps : List String) :
    addPermissions (addPermissions al ps) ps = addPermissions al ps :=
  addPermissions_no_op ps _ (fun p hp => self_mem_addPermissions ps al p hp)

/-- Mapping a function that fixes every element is the identity. -/
theorem map_eq_self_of_eq {α : Type} (l : List α) (f : α → α)
    (h : ∀ a ∈ l, f a = a) : l.map f = l := by
  induction l with
  | nil => rfl
  | cons x t ih =>
    simp only [List.map_cons, h x (List.mem_cons_self x t)]
    rw [ih (fun a ha => h a (List.mem_cons_of_mem x ha))]

/-- JS keyed assignment is idempotent: assigning the same value twice under
the same key produces the same object as assigning it once. -/
theorem setServer_idem (m : List (String × McpServer)) (k : String)
    (v : McpServer) : setServer (setServer m k v) k v = setServer m k v := by
  unfold setServer
  by_cases hk : m.any (fun p => decide (p.1 = k)) = true
  · rw [if_pos hk]
    have hmap : (m.map (fun p => if p.1 = k then (k, v) else p)).any
        (fun p => decide (p.1 = k)) = true := by
      obtain ⟨p, hp, hpk⟩ := List.any_eq_true.mp hk
      refine List.any_eq_true.mpr ⟨(k, v), List.mem_map.mpr ⟨p, hp, ?_⟩, by simp⟩
      rw [if_pos (by simpa using hpk)]
    rw [if_pos hmap, List.map_map]
    have hff : ((fun p : String × McpServer => if p.1 = k then (k, v) else p) ∘
        (fun p : String × McpServer => if p.1 = k then (k, v) else p)) =
        (fun p : String × McpServer => if p.1 = k then (k, v) else p) := by
      funext p
      by_cases hp : p.1 = k
      · simp [hp]
      · simp [hp]
    rw [hff]
  · rw [if_neg hk]
    have hmap : (m ++ [(k, v)]).any (fun p => decide (p.1 = k)) = true := by
      simp
    rw [if_pos hmap, List.map_append]
    have hm : m.map (fun p : String × McpServer => if p.1 = k then (k, v) else p)
        = m := by
      refine map_eq_self_of_eq m _ (fun a ha => ?_)
      have hka : ¬(a.1 = k) := by
        intro hak
        exact hk (List.any_eq_true.mpr ⟨a, ha, by simp [hak]⟩)
      rw [if_neg hka]
    rw [hm]
    simp

end Installer

namespace Installer

/-- Claim C9: `configureSettings` is idempotent on the settings content —
running it twice with the same installation type, MCP flag and home
directory produces exactly the settings produced by running it once: each
hook entry is appended only when no existing entry's command already
contains its script name, each permission is appended only when absent, and
the MCP server entry is a keyed assignment of a fixed value. -/
theorem configureSettings_idempotent (it : String) (mcp : Bool)
    (home : String) (s : Settings) :
    configureSettings it mcp home (configureSettings it mcp home s) =
      configureSettings it mcp home s := by
  have hss : matcherHasScript ("initialize_agent_system.py")
      (sessionStartEntry (hookPfx it home)) = true := by
    unfold matcherHasScript sessionStartEntry
    simp [strIncludes_slash (hookPfx it home) ("/initialize_agent_system.py")
      ("initialize_agent_system.py") rfl]
  have hpt : (decide ((preToolUseEntry (hookPfx it home)).matcher = some "Task") &&
      matcherHasScript ("context_cache_checker.py")
        (preToolUseEntry (hookPfx it home))) = true := by
    unfold matcherHasScript preToolUseEntry
    simp [strIncludes_slash (hookPfx it home) ("/context_cache_checker.py")
      ("context_cache_checker.py") rfl]
  have hsa : matcherHasScript ("subagent_memory_analyzer.py")
      (subagentStopEntry (hookPfx it home)) = true := by
    unfold matcherHasScript subagentStopEntry
    simp [strIncludes_slash (hookPfx it home) ("/subagent_memory_analyzer.py")
      ("subagent_memory_analyzer.py") rfl]
  unfold configureSettings
  simp only [Option.getD_some]
  rw [ensureHookEntry_stable _ _ _ (any_ensureHookEntry _ _ _ hss),
    ensureHookEntry_stable _ _ _ (any_ensureHookEntry _ _ _ hpt),
    ensureHookEntry_stable _ _ _ (any_ensureHookEntry _ _ _ hsa),
    addPermissions_idem]
  by_cases hc : mcp = true ∧ it = "global"
  · simp only [if_pos hc, Option.getD_some, setServer_idem]
  · simp only [if_neg hc]

/-- Claim C10: when the existing settings file or project `.mcp.json` cannot
be parsed, `configureSettings` and `configureMCPProject` proceed from an
empty object — the written content is exactly the freshly generated one,
identical to the missing-file case and independent of the unparsable
content, with every pre-existing field discarded and no error reported
(both functions are total). -/
theorem unparsable_config_discarded (it : String) (mcp : Bool)
    (home raw : String) :
    configureSettingsFile it mcp home (FileState.unparsable raw) =
      configureSettings it mcp home emptySettings ∧
    configureSettingsFile it mcp home (FileState.unparsable raw) =
      configureSettingsFile it mcp home FileState.missing ∧
    configureMCPProject true (FileState.unparsable raw) =
      some ⟨some [("agent-messaging", projectMcpServer)]⟩ ∧
    configureMCPProject true (FileState.unparsable raw) =
      configureMCPProject true FileState.missing := by
  refine ⟨rfl, rfl, ?_, rfl⟩
  unfold configureMCPProject FileState.loadOr setServer
  simp

end Installer
